import Mathlib

/-!
Shallow embedding of the libgav1 sub-pixel motion-compensated convolution
subsystem (src/dsp/convolve).  The repository under verification ships only
the dispatch header src/dsp/convolve.h, which declares ConvolveInit_C and
includes the per-platform kernel headers; the filter tables, the reference
and scaled kernels, and the dispatch-table population code are modelled
here from the specification's description of them.
-/

/-- Modelled from the spec: fixed-point filter precision of the Filter Bank
(the kernels' tap tables are not under src/).  Tap sums equal the fixed-point
representation of unity, 2 ^ kFilterBits = 128. -/
def kFilterBits : ℕ := 7

/-- Modelled from the spec: the horizontal pass round-shifts to an
intermediate precision wider than the input bit depth. -/
def kRoundBitsHorizontal : ℕ := 3

/-- Modelled from the spec: the vertical pass round-shifts back down to the
output bit depth; the two shifts together undo both filter gains. -/
def kRoundBitsVertical : ℕ := 2 * kFilterBits - kRoundBitsHorizontal

/-- Modelled from the spec: the minimum-size threshold below which a block
dimension selects the narrow (2-tap) filter variant; a fixed small
power-of-two block dimension. -/
def kMinWideBlockDim : ℕ := 4

/-- Rounding right shift: add half of the shift range and floor-divide,
matching the C kernels' arithmetic shift with rounding.  Division on ℤ here
is Euclidean, which is floor division for a positive power-of-two divisor. -/
def roundShift (x : ℤ) (b : ℕ) : ℤ := (x + 2 ^ (b - 1)) / 2 ^ b

/-- Clamp a filtered value to the valid sample range [0, 2 ^ bd - 1] of the
given bit depth. -/
def clampPixel (bd : ℕ) (v : ℤ) : ℤ := max 0 (min v (2 ^ bd - 1))

/-- Modelled from the spec: the Filter Selector's filter classes
(the class enumeration is not under src/). -/
inductive FilterKind
  | regular
  | smooth
  | sharp
  | bilinear
deriving DecidableEq

/-- Modelled from the spec: the wide (8-tap) Filter Bank table of the
regular class, one signed fixed-point tap row per sub-pixel phase; each
row sums to 128 and phase 0 is the identity filter. -/
def kRegularTaps : Fin 16 → Fin 8 → ℤ :=
  ![![0, 0, 0, 128, 0, 0, 0, 0],
    ![0, 2, -6, 126, 8, -2, 0, 0],
    ![0, 2, -10, 122, 18, -4, 0, 0],
    ![0, 2, -12, 116, 28, -8, 2, 0],
    ![0, 2, -14, 110, 38, -10, 2, 0],
    ![0, 2, -14, 102, 48, -12, 2, 0],
    ![0, 2, -16, 94, 58, -12, 2, 0],
    ![0, 2, -14, 84, 66, -12, 2, 0],
    ![0, 2, -14, 76, 76, -14, 2, 0],
    ![0, 2, -12, 66, 84, -14, 2, 0],
    ![0, 2, -12, 58, 94, -16, 2, 0],
    ![0, 2, -12, 48, 102, -14, 2, 0],
    ![0, 2, -10, 38, 110, -14, 2, 0],
    ![0, 2, -8, 28, 116, -12, 2, 0],
    ![0, 0, -4, 18, 122, -10, 2, 0],
    ![0, 0, -2, 8, 126, -6, 2, 0]]

/-- Modelled from the spec: the wide (8-tap) Filter Bank table of the
smooth class; each row sums to 128 and phase 0 is the identity filter. -/
def kSmoothTaps : Fin 16 → Fin 8 → ℤ :=
  ![![0, 0, 0, 128, 0, 0, 0, 0],
    ![0, 2, 28, 62, 34, 2, 0, 0],
    ![0, 0, 26, 62, 36, 4, 0, 0],
    ![0, 0, 22, 62, 40, 4, 0, 0],
    ![0, 0, 20, 60, 42, 6, 0, 0],
    ![0, 0, 18, 58, 44, 8, 0, 0],
    ![0, 0, 16, 56, 46, 10, 0, 0],
    ![0, -2, 16, 54, 48, 12, 0, 0],
    ![0, -2, 14, 52, 52, 14, -2, 0],
    ![0, 0, 12, 48, 54, 16, -2, 0],
    ![0, 0, 10, 46, 56, 16, 0, 0],
    ![0, 0, 8, 44, 58, 18, 0, 0],
    ![0, 0, 6, 42, 60, 20, 0, 0],
    ![0, 0, 4, 40, 62, 22, 0, 0],
    ![0, 0, 4, 36, 62, 26, 0, 0],
    ![0, 0, 2, 34, 62, 28, 2, 0]]

/-- Modelled from the spec: the wide (8-tap) Filter Bank table of the
sharp class; each row sums to 128 and phase 0 is the identity filter. -/
def kSharpTaps : Fin 16 → Fin 8 → ℤ :=
  ![![0, 0, 0, 128, 0, 0, 0, 0],
    ![-2, 2, -6, 126, 8, -2, 2, 0],
    ![-2, 6, -12, 124, 16, -6, 4, -2],
    ![-2, 8, -18, 120, 26, -10, 6, -2],
    ![-4, 10, -22, 116, 38, -14, 6, -2],
    ![-4, 10, -22, 108, 48, -18, 8, -2],
    ![-4, 10, -24, 100, 60, -20, 8, -2],
    ![-4, 10, -24, 90, 70, -22, 10, -2],
    ![-4, 12, -24, 80, 80, -24, 12, -4],
    ![-2, 10, -22, 70, 90, -24, 10, -4],
    ![-2, 8, -20, 60, 100, -24, 10, -4],
    ![-2, 8, -18, 48, 108, -22, 10, -4],
    ![-2, 6, -14, 38, 116, -22, 10, -4],
    ![-2, 6, -10, 26, 120, -18, 8, -2],
    ![-2, 4, -6, 16, 124, -12, 6, -2],
    ![0, 2, -2, 8, 126, -6, 2, -2]]

/-- Modelled from the spec: the narrow (2-tap) bilinear Filter Bank table,
stored in the shared 8-slot layout with the two live taps at the centre
positions; each row sums to 128 and phase 0 is the identity filter. -/
def kBilinearTaps : Fin 16 → Fin 8 → ℤ := fun p =>
  ![0, 0, 0, 128 - 8 * (p.val : ℤ), 8 * (p.val : ℤ), 0, 0, 0]

/-- Modelled from the spec: the Filter Bank lookup by class and phase. -/
def kindTaps : FilterKind → Fin 16 → Fin 8 → ℤ
  | .regular => kRegularTaps
  | .smooth => kSmoothTaps
  | .sharp => kSharpTaps
  | .bilinear => kBilinearTaps

/-- Modelled from the spec: tap-set selection — the narrow set is used when
the filtered block dimension is below the minimum-size threshold, the
class's wide set otherwise. -/
def getTaps (k : FilterKind) (dim : ℕ) : Fin 16 → Fin 8 → ℤ :=
  if dim < kMinWideBlockDim then kindTaps .bilinear else kindTaps k

/-- A reference plane: an immutable view of one colour plane's samples,
total over ℤ × ℤ because the frame-buffer subsystem supplies the required
edge-extension border around the block. -/
def RefPlane : Type := ℤ → ℤ → ℤ

/-- A reference plane is valid for bit depth bd when every sample lies in
the representable range [0, 2 ^ bd - 1]. -/
def ValidPlane (bd : ℕ) (ref : RefPlane) : Prop :=
  ∀ x y : ℤ, 0 ≤ ref x y ∧ ref x y < 2 ^ bd

/-- Modelled from the spec: the inputs of the Reference Convolution Kernel
(the kernel itself is not under src/): integer reference offset, sub-pixel
phases, filter classes per axis, block dimensions and bit depth. -/
structure ConvolveParams where
  xInt : ℤ
  yInt : ℤ
  ph : Fin 16
  pv : Fin 16
  hKind : FilterKind
  vKind : FilterKind
  w : ℕ
  h : ℕ
  bd : ℕ

/-- Horizontal tap set of a call: selected by class, horizontal phase and
block width. -/
def hTaps (p : ConvolveParams) : Fin 8 → ℤ := getTaps p.hKind p.w p.ph

/-- Vertical tap set of a call: selected by class, vertical phase and block
height. -/
def vTaps (p : ConvolveParams) : Fin 8 → ℤ := getTaps p.vKind p.h p.pv

/-- Modelled from the spec: one horizontal-pass intermediate value — the
8-tap dot product centred on reference column x of row y, round-shifted to
the intermediate precision. -/
def horizPixel (ref : RefPlane) (taps : Fin 8 → ℤ) (x y : ℤ) : ℤ :=
  roundShift (∑ k : Fin 8, taps k * ref (x + (k.val : ℤ) - 3) y) kRoundBitsHorizontal

/-- Modelled from the spec: the vertical-pass accumulator — the 8-tap dot
product of the horizontal-pass intermediate rows centred on row y, before
the final round-shift and clamp. -/
def vertAccum (ref : RefPlane) (tH tV : Fin 8 → ℤ) (x y : ℤ) : ℤ :=
  ∑ k : Fin 8, tV k * horizPixel ref tH x (y + (k.val : ℤ) - 3)

/-- Modelled from the spec: one final output sample of the single-reference
kernel — vertical accumulator round-shifted back to the output bit depth
and clamped to the valid sample range. -/
def convolvePixel (ref : RefPlane) (tH tV : Fin 8 → ℤ) (bd : ℕ) (x y : ℤ) : ℤ :=
  clampPixel bd (roundShift (vertAccum ref tH tV x y) kRoundBitsVertical)

/-- Modelled from the spec: the Reference Convolution Kernel
(`ConvolveFunc`, not under src/) — two-pass separable filtering producing
the block sample at output coordinate (x, y). -/
def convolve (ref : RefPlane) (p : ConvolveParams) (x y : ℕ) : ℤ :=
  convolvePixel ref (hTaps p) (vTaps p) p.bd (p.xInt + x) (p.yInt + y)

/-- Modelled from the spec: the special-cased direct copy taken when both
motion offsets have zero fractional phase — a sample copy from the
corresponding integer offset of the reference plane. -/
def convolveCopy (ref : RefPlane) (p : ConvolveParams) (x y : ℕ) : ℤ :=
  ref (p.xInt + x) (p.yInt + y)

/-- Modelled from the spec: the compound kernel (`ConvolveCompoundFunc`,
not under src/) — identical passes but the vertical-pass result is left at
the wider intermediate precision with no final rounding or clamping. -/
def convolveCompound (ref : RefPlane) (p : ConvolveParams) (x y : ℕ) : ℤ :=
  vertAccum ref (hTaps p) (vTaps p) (p.xInt + x) (p.yInt + y)

/-- Modelled from the spec: the caller's compound blend stage — average two
intermediate-precision predictions with a single rounding step. -/
def compoundBlend (a b : ℤ) : ℤ := roundShift (a + b) 1

/-- Modelled from the spec: the final rounding applied once after the
compound blend, taking the averaged intermediate back to the output bit
depth with the usual clamp. -/
def compoundFinal (bd : ℕ) (v : ℤ) : ℤ := clampPixel bd (roundShift v kRoundBitsVertical)

/-- Modelled from the spec: fixed-point resolution of scaled source
positions — 2 ^ 10 position units per reference sample, of which the top
four fractional bits select the Filter Bank phase. -/
def kScaleUnit : ℤ := 1024

/-- Integer part of a scaled source position. -/
def posInt (p : ℤ) : ℤ := p / 1024

/-- Sub-pixel phase of a scaled source position: the fractional part
quantized to the Filter Bank's 16-phase resolution. -/
def posPhase (p : ℤ) : Fin 16 :=
  ⟨(p / 64 % 16).toNat, by omega⟩

/-- Modelled from the spec: the inputs of the Scaled Convolution Kernel
(not under src/): per-axis fixed-point start positions and step sizes, in
kScaleUnit units, plus the per-call selector and geometry. -/
structure ScaledParams where
  startX : ℤ
  startY : ℤ
  stepX : ℤ
  stepY : ℤ
  hKind : FilterKind
  vKind : FilterKind
  w : ℕ
  h : ℕ
  bd : ℕ

/-- Modelled from the spec: the scaled horizontal pass at one fixed-point
source position px on reference row yInt — phase and integer offset are
recomputed from the position. -/
def scaledHoriz (ref : RefPlane) (k : FilterKind) (w : ℕ) (px yInt : ℤ) : ℤ :=
  roundShift (∑ j : Fin 8, getTaps k w (posPhase px) j * ref (posInt px + (j.val : ℤ) - 3) yInt)
    kRoundBitsHorizontal

/-- Modelled from the spec: one output sample of the scaled kernel at
fixed-point source position (px, py), following the reference kernel's
rounding and clamping rules. -/
def scaledPixel (ref : RefPlane) (sp : ScaledParams) (px py : ℤ) : ℤ :=
  clampPixel sp.bd
    (roundShift
      (∑ j : Fin 8,
        getTaps sp.vKind sp.h (posPhase py) j *
          scaledHoriz ref sp.hKind sp.w px (posInt py + (j.val : ℤ) - 3))
      kRoundBitsVertical)

/-- Modelled from the spec: the Scaled Convolution Kernel
(`ConvolveScaleFunc`, not under src/) — the source position of output index
i is start + i * step per axis, with per-output-sample phase recomputation. -/
def convolveScaled (ref : RefPlane) (sp : ScaledParams) (x y : ℕ) : ℤ :=
  scaledPixel ref sp (sp.startX + x * sp.stepX) (sp.startY + y * sp.stepY)

/-- Modelled from the spec: the NEON Platform Kernel Set's horizontal pass
(convolve_neon, not under src/) — a numerically-identical reimplementation;
its vector lanes accumulate the taps in reversed order. -/
def horizPixelNEON (ref : RefPlane) (taps : Fin 8 → ℤ) (x y : ℤ) : ℤ :=
  roundShift (∑ k : Fin 8, taps (7 - k) * ref (x + ((7 - k : Fin 8).val : ℤ) - 3) y)
    kRoundBitsHorizontal

/-- Modelled from the spec: the NEON single-reference kernel — identical
arithmetic with reversed accumulation order in both passes. -/
def convolveNEON (ref : RefPlane) (p : ConvolveParams) (x y : ℕ) : ℤ :=
  clampPixel p.bd
    (roundShift
      (∑ k : Fin 8,
        vTaps p (7 - k) *
          horizPixelNEON ref (hTaps p) (p.xInt + x) (p.yInt + y + ((7 - k : Fin 8).val : ℤ) - 3))
      kRoundBitsVertical)

/-- Modelled from the spec: the NEON scaled kernel — reference arithmetic
with the horizontal pass accumulated in reversed order. -/
def convolveScaledNEON (ref : RefPlane) (sp : ScaledParams) (x y : ℕ) : ℤ :=
  clampPixel sp.bd
    (roundShift
      (∑ j : Fin 8,
        getTaps sp.vKind sp.h (posPhase (sp.startY + y * sp.stepY)) j *
          horizPixelNEON ref (getTaps sp.hKind sp.w (posPhase (sp.startX + x * sp.stepX)))
            (posInt (sp.startX + x * sp.stepX))
            (posInt (sp.startY + y * sp.stepY) + (j.val : ℤ) - 3))
      kRoundBitsVertical)

/-- Modelled from the spec: the SSE4 Platform Kernel Set's horizontal pass
(convolve_sse4, not under src/) — a numerically-identical reimplementation;
its lanes pair the taps into four explicit two-tap partial sums. -/
def horizPixelSSE4 (ref : RefPlane) (taps : Fin 8 → ℤ) (x y : ℤ) : ℤ :=
  roundShift
    ((taps 0 * ref (x - 3) y + taps 1 * ref (x - 2) y) +
      (taps 2 * ref (x - 1) y + taps 3 * ref x y) +
      ((taps 4 * ref (x + 1) y + taps 5 * ref (x + 2) y) +
        (taps 6 * ref (x + 3) y + taps 7 * ref (x + 4) y)))
    kRoundBitsHorizontal

/-- Modelled from the spec: the SSE4 single-reference kernel — identical
arithmetic with explicitly paired partial sums in the vertical pass. -/
def convolveSSE4 (ref : RefPlane) (p : ConvolveParams) (x y : ℕ) : ℤ :=
  clampPixel p.bd
    (roundShift
      ((vTaps p 0 * horizPixelSSE4 ref (hTaps p) (p.xInt + x) (p.yInt + y - 3) +
          vTaps p 1 * horizPixelSSE4 ref (hTaps p) (p.xInt + x) (p.yInt + y - 2)) +
        (vTaps p 2 * horizPixelSSE4 ref (hTaps p) (p.xInt + x) (p.yInt + y - 1) +
          vTaps p 3 * horizPixelSSE4 ref (hTaps p) (p.xInt + x) (p.yInt + y)) +
        ((vTaps p 4 * horizPixelSSE4 ref (hTaps p) (p.xInt + x) (p.yInt + y + 1) +
            vTaps p 5 * horizPixelSSE4 ref (hTaps p) (p.xInt + x) (p.yInt + y + 2)) +
          (vTaps p 6 * horizPixelSSE4 ref (hTaps p) (p.xInt + x) (p.yInt + y + 3) +
            vTaps p 7 * horizPixelSSE4 ref (hTaps p) (p.xInt + x) (p.yInt + y + 4))))
      kRoundBitsVertical)

/-- Modelled from the spec: the SSE4 scaled kernel — reference arithmetic
with the horizontal pass computed by paired partial sums. -/
def convolveScaledSSE4 (ref : RefPlane) (sp : ScaledParams) (x y : ℕ) : ℤ :=
  clampPixel sp.bd
    (roundShift
      (∑ j : Fin 8,
        getTaps sp.vKind sp.h (posPhase (sp.startY + y * sp.stepY)) j *
          horizPixelSSE4 ref (getTaps sp.hKind sp.w (posPhase (sp.startX + x * sp.stepX)))
            (posInt (sp.startX + x * sp.stepX))
            (posInt (sp.startY + y * sp.stepY) + (j.val : ℤ) - 3))
      kRoundBitsVertical)

/-- Modelled from the spec: the instruction-set tiers whose kernel sets can
populate the Dispatch Table, least capable first. -/
inductive ImplTier
  | c
  | neon
  | sse4
deriving DecidableEq

/-- Modelled from the spec: the detected CPU capabilities checked once by
each Platform Kernel Set's init routine. -/
structure CpuFeatures where
  hasNEON : Bool
  hasSSE4 : Bool

/-- Modelled from the spec: a Dispatch Table key — bit depth bucket,
scaled-or-not, compound-or-not. -/
def DispatchKey : Type := ℕ × Bool × Bool

/-- Modelled from the spec: the Dispatch Table — one function entry per
key; entries start unpopulated. -/
def DispatchTable : Type := DispatchKey → Option ImplTier

/-- The table before any init routine has run. -/
def emptyTable : DispatchTable := fun _ => none

/-- Modelled from the spec: whether the running CPU supports a tier; the
base C tier is always supported. -/
def tierSupported (f : CpuFeatures) : ImplTier → Bool
  | .c => true
  | .neon => f.hasNEON
  | .sse4 => f.hasSSE4

/-- Modelled from the spec: one Platform Kernel Set's init routine —
overwrites the entries with its implementation if the running CPU supports
it, leaves the table unchanged otherwise. -/
def registerTier (f : CpuFeatures) (t : DispatchTable) (tier : ImplTier) : DispatchTable :=
  if tierSupported f tier then fun _ => some tier else t

/-- Modelled from the spec: ConvolveInit_C (declared in src/dsp/convolve.h,
defined outside src/) — populates every Dsp::convolve and
Dsp::convolve_scale entry with the portable C implementation,
unconditionally. -/
def ConvolveInit_C (_t : DispatchTable) : DispatchTable := fun _ => some ImplTier.c

/-- Modelled from the spec: full dispatch initialization — the base
implementation registers first, then each wider vector tier in
least-capable-to-most-capable order. -/
def dspInit (f : CpuFeatures) : DispatchTable :=
  registerTier f (registerTier f (ConvolveInit_C emptyTable) ImplTier.neon) ImplTier.sse4

/-- The most capable tier the running CPU supports, under the registration
order's capability ranking. -/
def bestTier (f : CpuFeatures) : ImplTier :=
  if f.hasSSE4 then ImplTier.sse4 else if f.hasNEON then ImplTier.neon else ImplTier.c

/-- The single-reference kernel an ImplTier entry stands for. -/
def tierImpl : ImplTier → RefPlane → ConvolveParams → ℕ → ℕ → ℤ
  | .c => convolve
  | .neon => convolveNEON
  | .sse4 => convolveSSE4

/-- Modelled from the spec: one steady-state event after initialization — a
convolution call through the Dispatch Table. -/
inductive DecodeEvent
  | call (key : DispatchKey) (ref : RefPlane) (p : ConvolveParams) (x y : ℕ)

/-- Modelled from the spec: process state after initialization — the
populated Dispatch Table plus the outputs produced so far. -/
structure ProcState where
  table : DispatchTable
  outputs : List ℤ

/-- Modelled from the spec: executing one steady-state event — a call looks
its kernel up in the table and appends the produced sample; the table is
never written. -/
def procStep (s : ProcState) (e : DecodeEvent) : ProcState :=
  match e with
  | .call key ref p x y =>
      { s with
        outputs :=
          (match s.table key with
            | some tier => tierImpl tier ref p x y
            | none => 0) :: s.outputs }

/-- Run a sequence of steady-state events. -/
def procRun (s : ProcState) (es : List DecodeEvent) : ProcState :=
  es.foldl procStep s

/-- Write one predicted block into a destination plane at offset (dx, dy):
only coordinates inside the w × h block are touched. -/
def writeBlock (dest : RefPlane) (dx dy : ℤ) (w h : ℕ) (blk : ℕ → ℕ → ℤ) : RefPlane :=
  fun x y =>
    if dx ≤ x ∧ x < dx + w ∧ dy ≤ y ∧ y < dy + h then
      blk (x - dx).toNat (y - dy).toNat
    else dest x y

/-- Modelled from the spec: one single-reference call as a state
transformer over the borrowed reference plane and the caller's destination
plane; the engine writes the block and returns both planes. -/
def convolveCall (ref dest : RefPlane) (p : ConvolveParams) (dx dy : ℤ) :
    RefPlane × RefPlane :=
  (ref, writeBlock dest dx dy p.w p.h (convolve ref p))

/-- Modelled from the spec: one compound call as a state transformer. -/
def convolveCompoundCall (ref dest : RefPlane) (p : ConvolveParams) (dx dy : ℤ) :
    RefPlane × RefPlane :=
  (ref, writeBlock dest dx dy p.w p.h (convolveCompound ref p))

/-- Modelled from the spec: one scaled call as a state transformer. -/
def convolveScaledCall (ref dest : RefPlane) (sp : ScaledParams) (dx dy : ℤ) :
    RefPlane × RefPlane :=
  (ref, writeBlock dest dx dy sp.w sp.h (convolveScaled ref sp))

/-- Modelled from the spec: a concrete 8-bit input whose filtered
intermediate value exceeds the sample range — samples of 255 placed under
the positive taps of the regular half-pel filter, 0 under the negative
taps. -/
def overflowRef : RefPlane := fun x _ =>
  if x = -2 ∨ x = 0 ∨ x = 1 ∨ x = 3 then 255 else 0

/-- Call parameters driving overflowRef through the regular half-pel
horizontal filter at 8-bit depth. -/
def overflowParams : ConvolveParams :=
  ⟨0, 0, 8, 0, FilterKind.regular, FilterKind.regular, 8, 8, 8⟩

/-!  ## Theorems  -/

theorem sum_kindTaps (k : FilterKind) (p : Fin 16) :
    ∑ j : Fin 8, kindTaps k p j = 128 := by
  cases k <;> revert p <;> decide

theorem sum_getTaps (k : FilterKind) (d : ℕ) (p : Fin 16) :
    ∑ j : Fin 8, getTaps k d p j = 128 := by
  unfold getTaps
  split <;> exact sum_kindTaps _ p

theorem kindTaps_phase0 (k : FilterKind) :
    kindTaps k 0 = ![0, 0, 0, (128 : ℤ), 0, 0, 0, 0] := by
  cases k <;> decide

theorem getTaps_phase0 (k : FilterKind) (d : ℕ) :
    getTaps k d 0 = ![0, 0, 0, (128 : ℤ), 0, 0, 0, 0] := by
  unfold getTaps
  split <;> exact kindTaps_phase0 _

theorem roundShift_horiz_unit (v : ℤ) :
    roundShift (128 * v) kRoundBitsHorizontal = 16 * v := by
  show (128 * v + 2 ^ (3 - 1)) / 2 ^ 3 = 16 * v
  norm_num
  omega

theorem roundShift_vert_unit (v : ℤ) :
    roundShift (2048 * v) kRoundBitsVertical = v := by
  show (2048 * v + 2 ^ (11 - 1)) / 2 ^ 11 = v
  norm_num
  omega

theorem compoundBlend_self (a : ℤ) : compoundBlend a a = a := by
  show (a + a + 2 ^ (1 - 1)) / 2 ^ 1 = a
  norm_num
  omega

theorem clampPixel_of_range (bd : ℕ) (v : ℤ) (h0 : 0 ≤ v) (h1 : v < 2 ^ bd) :
    clampPixel bd v = v := by
  unfold clampPixel
  rw [min_eq_left (by omega), max_eq_right h0]

theorem sum_id_taps (g : Fin 8 → ℤ) :
    ∑ k : Fin 8, (![0, 0, 0, (128 : ℤ), 0, 0, 0, 0]) k * g k = 128 * g 3 := by
  have h5 : (![0, 0, 0, (128 : ℤ), 0, 0, 0, 0] : Fin 8 → ℤ) 5 = 0 := rfl
  have h6 : (![0, 0, 0, (128 : ℤ), 0, 0, 0, 0] : Fin 8 → ℤ) 6 = 0 := rfl
  have h7 : (![0, 0, 0, (128 : ℤ), 0, 0, 0, 0] : Fin 8 → ℤ) 7 = 0 := rfl
  simp [Fin.sum_univ_eight, h5, h6, h7]

theorem horizPixel_idTaps (ref : RefPlane) (x y : ℤ) :
    horizPixel ref ![0, 0, 0, (128 : ℤ), 0, 0, 0, 0] x y = 16 * ref x y := by
  unfold horizPixel
  rw [sum_id_taps fun k => ref (x + (k.val : ℤ) - 3) y]
  norm_num [show (((3 : Fin 8).val : ℤ)) = 3 from rfl]
  exact roundShift_horiz_unit _

theorem vertAccum_idTaps (ref : RefPlane) (x y : ℤ) :
    vertAccum ref ![0, 0, 0, (128 : ℤ), 0, 0, 0, 0] ![0, 0, 0, (128 : ℤ), 0, 0, 0, 0] x y =
      2048 * ref x y := by
  unfold vertAccum
  rw [sum_id_taps fun k => horizPixel ref _ x (y + (k.val : ℤ) - 3)]
  rw [show y + (((3 : Fin 8).val : ℤ)) - 3 = y from by
    norm_num [show (((3 : Fin 8).val : ℤ)) = 3 from rfl]]
  rw [horizPixel_idTaps]
  ring

theorem hTaps_phase0 (p : ConvolveParams) (h : p.ph = 0) :
    hTaps p = ![0, 0, 0, (128 : ℤ), 0, 0, 0, 0] := by
  unfold hTaps
  rw [h, getTaps_phase0]

theorem vTaps_phase0 (p : ConvolveParams) (h : p.pv = 0) :
    vTaps p = ![0, 0, 0, (128 : ℤ), 0, 0, 0, 0] := by
  unfold vTaps
  rw [h, getTaps_phase0]

/-- C2: at zero fractional phase in both axes, for every filter selector,
the full two-pass filter — which then runs with the identity (phase-0) tap
set — produces exactly the direct sample copy from the corresponding
integer offset of the reference plane. -/
theorem convolve_zero_phase_identity (ref : RefPlane) (p : ConvolveParams)
    (hval : ValidPlane p.bd ref) (hph : p.ph = 0) (hpv : p.pv = 0) (x y : ℕ) :
    convolve ref p x y = convolveCopy ref p x y ∧
      convolveCopy ref p x y = ref (p.xInt + x) (p.yInt + y) := by
  refine ⟨?_, rfl⟩
  unfold convolve convolvePixel convolveCopy
  rw [hTaps_phase0 p hph, vTaps_phase0 p hpv, vertAccum_idTaps, roundShift_vert_unit]
  exact clampPixel_of_range _ _ (hval _ _).1 (hval _ _).2

theorem convolve_zero_phase_identity_witness :
    convolve (fun _ _ => 200) ⟨5, -4, 0, 0, FilterKind.sharp, FilterKind.smooth, 8, 8, 8⟩ 1 2 =
      convolveCopy (fun _ _ => 200) ⟨5, -4, 0, 0, FilterKind.sharp, FilterKind.smooth, 8, 8, 8⟩ 1 2 :=
  (convolve_zero_phase_identity (fun _ _ => 200)
    ⟨5, -4, 0, 0, FilterKind.sharp, FilterKind.smooth, 8, 8, 8⟩
    (fun _ _ => by norm_num) rfl rfl 1 2).1

theorem horizPixel_uniform (taps : Fin 8 → ℤ) (hs : ∑ j : Fin 8, taps j = 128)
    (v x y : ℤ) : horizPixel (fun _ _ => v) taps x y = 16 * v := by
  show roundShift (∑ k : Fin 8, taps k * v) kRoundBitsHorizontal = 16 * v
  rw [← Finset.sum_mul, hs, roundShift_horiz_unit]

theorem vertAccum_uniform (tH tV : Fin 8 → ℤ) (hH : ∑ j : Fin 8, tH j = 128)
    (hV : ∑ j : Fin 8, tV j = 128) (v x y : ℤ) :
    vertAccum (fun _ _ => v) tH tV x y = 2048 * v := by
  unfold vertAccum
  have hrw : ∀ k : Fin 8, tV k * horizPixel (fun _ _ => v) tH x (y + (k.val : ℤ) - 3) =
      tV k * (16 * v) := fun k => by rw [horizPixel_uniform tH hH]
  rw [Finset.sum_congr rfl fun k _ => hrw k, ← Finset.sum_mul, hV]
  ring

/-- C3: every tap set of the Filter Bank — all classes, phases and both
tap-count variants — sums to the fixed-point unity 128; consequently the
kernel maps a uniform block of any in-range value v to a uniform block of
value v, at every phase. -/
theorem convolve_dc_preservation :
    (∀ (k : FilterKind) (d : ℕ) (p : Fin 16), ∑ j : Fin 8, getTaps k d p j = 128) ∧
      ∀ (p : ConvolveParams) (v : ℤ), 0 ≤ v → v < 2 ^ p.bd →
        ∀ x y : ℕ, convolve (fun _ _ => v) p x y = v := by
  refine ⟨sum_getTaps, fun p v h0 h1 x y => ?_⟩
  unfold convolve convolvePixel
  have hH : ∑ j : Fin 8, hTaps p j = 128 := sum_getTaps _ _ _
  have hV : ∑ j : Fin 8, vTaps p j = 128 := sum_getTaps _ _ _
  rw [vertAccum_uniform (hTaps p) (vTaps p) hH hV, roundShift_vert_unit]
  exact clampPixel_of_range _ _ h0 h1

theorem convolve_dc_preservation_witness :
    (∑ j : Fin 8, getTaps FilterKind.sharp 8 5 j = 128) ∧
      convolve (fun _ _ => 900) ⟨3, -2, 7, 9, FilterKind.smooth, FilterKind.sharp, 16, 16, 10⟩ 2 2 =
        900 :=
  ⟨convolve_dc_preservation.1 FilterKind.sharp 8 5,
    convolve_dc_preservation.2 ⟨3, -2, 7, 9, FilterKind.smooth, FilterKind.sharp, 16, 16, 10⟩ 900
      (by norm_num) (by norm_num) 2 2⟩

/-- C4: every output sample lies in [0, 2 ^ bd - 1]; the sample is the
clamp of the exact (wraparound-free) filtered value, an intermediate above
the range is clamped to the maximum, and one below zero is clamped to the
minimum. -/
theorem convolve_range_clamped (ref : RefPlane) (p : ConvolveParams) (x y : ℕ) :
    0 ≤ convolve ref p x y ∧
      convolve ref p x y ≤ 2 ^ p.bd - 1 ∧
      convolve ref p x y =
        clampPixel p.bd
          (roundShift (vertAccum ref (hTaps p) (vTaps p) (p.xInt + x) (p.yInt + y))
            kRoundBitsVertical) ∧
      (2 ^ p.bd ≤
          roundShift (vertAccum ref (hTaps p) (vTaps p) (p.xInt + x) (p.yInt + y))
            kRoundBitsVertical →
        convolve ref p x y = 2 ^ p.bd - 1) ∧
      (roundShift (vertAccum ref (hTaps p) (vTaps p) (p.xInt + x) (p.yInt + y))
            kRoundBitsVertical < 0 →
        convolve ref p x y = 0) := by
  have hpos : (0 : ℤ) < 2 ^ p.bd := pow_pos (by norm_num) p.bd
  have hM : (0 : ℤ) ≤ 2 ^ p.bd - 1 := by omega
  refine ⟨le_max_left _ _, ?_, rfl, fun hover => ?_, fun hneg => ?_⟩
  · exact max_le hM (min_le_right _ _)
  · show clampPixel _ _ = _
    unfold clampPixel
    rw [min_eq_right (by omega), max_eq_right hM]
  · show clampPixel _ _ = _
    unfold clampPixel
    rw [min_eq_left (by omega), max_eq_left (by omega)]

theorem convolve_range_clamped_witness :
    2 ^ overflowParams.bd ≤
        roundShift
          (vertAccum overflowRef (hTaps overflowParams) (vTaps overflowParams) 0 0)
          kRoundBitsVertical ∧
      convolve overflowRef overflowParams 0 0 = 2 ^ overflowParams.bd - 1 :=
  ⟨by decide, (convolve_range_clamped overflowRef overflowParams 0 0).2.2.2.1 (by decide)⟩

/-- C6: the compound kernel leaves the vertical-pass accumulator at the
wider intermediate precision with no final rounding or clamping, and
averaging a compound prediction with itself followed by the single final
rounding step equals the single-reference rounded output. -/
theorem convolve_compound_blend_self (ref : RefPlane) (p : ConvolveParams) (x y : ℕ) :
    convolveCompound ref p x y =
        vertAccum ref (hTaps p) (vTaps p) (p.xInt + x) (p.yInt + y) ∧
      compoundFinal p.bd
          (compoundBlend (convolveCompound ref p x y) (convolveCompound ref p x y)) =
        convolve ref p x y := by
  refine ⟨rfl, ?_⟩
  rw [compoundBlend_self]
  rfl

theorem sum_rev_fin8 (f : Fin 8 → ℤ) : ∑ k : Fin 8, f (7 - k) = ∑ k : Fin 8, f k :=
  Fintype.sum_equiv (Equiv.subLeft (7 : Fin 8)) _ f fun _ => rfl

theorem horizPixelNEON_eq (ref : RefPlane) (taps : Fin 8 → ℤ) (x y : ℤ) :
    horizPixelNEON ref taps x y = horizPixel ref taps x y := by
  unfold horizPixelNEON horizPixel
  congr 1
  exact sum_rev_fin8 fun j => taps j * ref (x + (j.val : ℤ) - 3) y

theorem convolveNEON_eq (ref : RefPlane) (p : ConvolveParams) (x y : ℕ) :
    convolveNEON ref p x y = convolve ref p x y := by
  unfold convolveNEON convolve convolvePixel vertAccum
  congr 1
  congr 1
  rw [sum_rev_fin8 fun j =>
    vTaps p j * horizPixelNEON ref (hTaps p) (p.xInt + x) (p.yInt + y + (j.val : ℤ) - 3)]
  exact Finset.sum_congr rfl fun k _ => by rw [horizPixelNEON_eq]

theorem horizPixelSSE4_eq (ref : RefPlane) (taps : Fin 8 → ℤ) (x y : ℤ) :
    horizPixelSSE4 ref taps x y = horizPixel ref taps x y := by
  unfold horizPixelSSE4 horizPixel
  congr 1
  rw [Fin.sum_univ_eight]
  norm_num [show (((0 : Fin 8).val : ℤ)) = 0 from rfl, show (((1 : Fin 8).val : ℤ)) = 1 from rfl,
    show (((2 : Fin 8).val : ℤ)) = 2 from rfl, show (((3 : Fin 8).val : ℤ)) = 3 from rfl,
    show (((4 : Fin 8).val : ℤ)) = 4 from rfl, show (((5 : Fin 8).val : ℤ)) = 5 from rfl,
    show (((6 : Fin 8).val : ℤ)) = 6 from rfl, show (((7 : Fin 8).val : ℤ)) = 7 from rfl]
  ring_nf

theorem convolveSSE4_eq (ref : RefPlane) (p : ConvolveParams) (x y : ℕ) :
    convolveSSE4 ref p x y = convolve ref p x y := by
  unfold convolveSSE4 convolve convolvePixel vertAccum
  congr 1
  congr 1
  rw [Fin.sum_univ_eight]
  norm_num [show (((0 : Fin 8).val : ℤ)) = 0 from rfl, show (((1 : Fin 8).val : ℤ)) = 1 from rfl,
    show (((2 : Fin 8).val : ℤ)) = 2 from rfl, show (((3 : Fin 8).val : ℤ)) = 3 from rfl,
    show (((4 : Fin 8).val : ℤ)) = 4 from rfl, show (((5 : Fin 8).val : ℤ)) = 5 from rfl,
    show (((6 : Fin 8).val : ℤ)) = 6 from rfl, show (((7 : Fin 8).val : ℤ)) = 7 from rfl,
    horizPixelSSE4_eq]
  ring_nf

theorem scaledHorizNEON_eq (ref : RefPlane) (k : FilterKind) (w : ℕ) (px yInt : ℤ) :
    horizPixelNEON ref (getTaps k w (posPhase px)) (posInt px) yInt =
      scaledHoriz ref k w px yInt := by
  rw [horizPixelNEON_eq]
  rfl

theorem convolveScaledNEON_eq (ref : RefPlane) (sp : ScaledParams) (x y : ℕ) :
    convolveScaledNEON ref sp x y = convolveScaled ref sp x y := by
  unfold convolveScaledNEON convolveScaled scaledPixel
  congr 1
  congr 1
  exact Finset.sum_congr rfl fun j _ => by rw [scaledHorizNEON_eq]

theorem scaledHorizSSE4_eq (ref : RefPlane) (k : FilterKind) (w : ℕ) (px yInt : ℤ) :
    horizPixelSSE4 ref (getTaps k w (posPhase px)) (posInt px) yInt =
      scaledHoriz ref k w px yInt := by
  rw [horizPixelSSE4_eq]
  rfl

theorem convolveScaledSSE4_eq (ref : RefPlane) (sp : ScaledParams) (x y : ℕ) :
    convolveScaledSSE4 ref sp x y = convolveScaled ref sp x y := by
  unfold convolveScaledSSE4 convolveScaled scaledPixel
  congr 1
  congr 1
  exact Finset.sum_congr rfl fun j _ => by rw [scaledHorizSSE4_eq]

/-- C1: on every input, each platform-accelerated kernel — the NEON and
SSE4 reimplementations of both convolve and convolve_scaled — produces
output bit-identical to the portable reference kernel. -/
theorem convolve_cross_impl_equiv (ref : RefPlane) (p : ConvolveParams)
    (sp : ScaledParams) (x y : ℕ) :
    convolveNEON ref p x y = convolve ref p x y ∧
      convolveSSE4 ref p x y = convolve ref p x y ∧
      convolveScaledNEON ref sp x y = convolveScaled ref sp x y ∧
      convolveScaledSSE4 ref sp x y = convolveScaled ref sp x y :=
  ⟨convolveNEON_eq ref p x y, convolveSSE4_eq ref p x y,
    convolveScaledNEON_eq ref sp x y, convolveScaledSSE4_eq ref sp x y⟩

theorem posInt_unit (a : ℤ) (p : ℕ) (hp : p < 16) :
    posInt (1024 * a + 64 * p) = a := by
  unfold posInt
  omega

theorem posPhase_unit (a : ℤ) (p : ℕ) (hp : p < 16) :
    posPhase (1024 * a + 64 * p) = ⟨p, hp⟩ := by
  apply Fin.ext
  show ((1024 * a + 64 * (p : ℤ)) / 64 % 16).toNat = p
  omega

/-- C5: with the identity scale factor — a step of one full reference
sample (1024 position units) per output sample on both axes — and start
positions carrying the same integer offset and sub-pixel phases, the scaled
kernel's output is bit-for-bit the reference kernel's output. -/
theorem convolve_scaled_unity_step (ref : RefPlane) (xInt yInt : ℤ) (ph pv : Fin 16)
    (hK vK : FilterKind) (w h bd : ℕ) (x y : ℕ) :
    convolveScaled ref
        ⟨1024 * xInt + 64 * ph.val, 1024 * yInt + 64 * pv.val, 1024, 1024, hK, vK, w, h, bd⟩ x y =
      convolve ref ⟨xInt, yInt, ph, pv, hK, vK, w, h, bd⟩ x y := by
  unfold convolveScaled scaledPixel scaledHoriz convolve convolvePixel vertAccum horizPixel
  unfold hTaps vTaps
  simp only []
  rw [show 1024 * xInt + 64 * (ph.val : ℤ) + (x : ℤ) * 1024 =
      1024 * (xInt + (x : ℤ)) + 64 * (ph.val : ℤ) from by ring]
  rw [show 1024 * yInt + 64 * (pv.val : ℤ) + (y : ℤ) * 1024 =
      1024 * (yInt + (y : ℤ)) + 64 * (pv.val : ℤ) from by ring]
  rw [posInt_unit _ _ ph.isLt, posPhase_unit _ _ ph.isLt]
  rw [posInt_unit _ _ pv.isLt, posPhase_unit _ _ pv.isLt]

theorem procStep_table (s : ProcState) (e : DecodeEvent) :
    (procStep s e).table = s.table := by
  cases e
  rfl

theorem procRun_table (es : List DecodeEvent) :
    ∀ s : ProcState, (procRun s es).table = s.table := by
  induction es with
  | nil => intro s; rfl
  | cons e es ih =>
      intro s
      show (procRun (procStep s e) es).table = s.table
      rw [ih, procStep_table]

/-- C7: dispatch initialization registers the base implementation first and
then each wider vector tier only if the CPU supports it, in
least-capable-to-most-capable order, so every entry of the finished table
holds the most capable supported implementation; afterwards no steady-state
event ever changes an entry. -/
theorem dispatch_init_order :
    (∀ (f : CpuFeatures) (k : DispatchKey), dspInit f k = some (bestTier f)) ∧
      ∀ (s : ProcState) (es : List DecodeEvent), (procRun s es).table = s.table := by
  constructor
  · intro f k
    obtain ⟨hn, hs⟩ := f
    cases hn <;> cases hs <;> rfl
  · intro s es
    exact procRun_table es s

/-- C10: ConvolveInit_C alone populates every dispatch entry — scaled and
non-scaled alike — with the portable C implementation, so on a platform
with no accelerated kernel set the finished table equals the
ConvolveInit_C-populated table and every entry is populated and callable. -/
theorem convolveInit_c_populates_all (f : CpuFeatures) (hn : f.hasNEON = false)
    (hs : f.hasSSE4 = false) :
    (∀ k : DispatchKey, ConvolveInit_C emptyTable k = some ImplTier.c) ∧
      dspInit f = ConvolveInit_C emptyTable ∧
      ∀ k : DispatchKey, (dspInit f k).isSome = true := by
  have hd : dspInit f = ConvolveInit_C emptyTable := by
    unfold dspInit registerTier tierSupported
    rw [hn, hs]
    simp
  exact ⟨fun _ => rfl, hd, fun k => by rw [hd]; rfl⟩

theorem convolveInit_c_populates_all_witness :
    ConvolveInit_C emptyTable (8, true, false) = some ImplTier.c ∧
      (dspInit ⟨false, false⟩ (10, false, true)).isSome = true :=
  ⟨(convolveInit_c_populates_all ⟨false, false⟩ rfl rfl).1 (8, true, false),
    (convolveInit_c_populates_all ⟨false, false⟩ rfl rfl).2.2 (10, false, true)⟩

/-- C9: a convolve, compound or scaled call returns the reference plane
unchanged, writes only inside the caller-provided destination block, and
modifies no engine state observable by a later call. -/
theorem convolve_frame_effects (ref dest : RefPlane) (p : ConvolveParams)
    (sp : ScaledParams) (dx dy : ℤ) :
    (convolveCall ref dest p dx dy).1 = ref ∧
      (convolveCompoundCall ref dest p dx dy).1 = ref ∧
      (convolveScaledCall ref dest sp dx dy).1 = ref ∧
      (∀ x y : ℤ, ¬(dx ≤ x ∧ x < dx + p.w ∧ dy ≤ y ∧ y < dy + p.h) →
        (convolveCall ref dest p dx dy).2 x y = dest x y) ∧
      (∀ x y : ℤ, ¬(dx ≤ x ∧ x < dx + p.w ∧ dy ≤ y ∧ y < dy + p.h) →
        (convolveCompoundCall ref dest p dx dy).2 x y = dest x y) ∧
      (∀ x y : ℤ, ¬(dx ≤ x ∧ x < dx + sp.w ∧ dy ≤ y ∧ y < dy + sp.h) →
        (convolveScaledCall ref dest sp dx dy).2 x y = dest x y) ∧
      ∀ (s : ProcState) (e : DecodeEvent), (procStep s e).table = s.table := by
  refine ⟨rfl, rfl, rfl, fun x y hout => ?_, fun x y hout => ?_, fun x y hout => ?_,
    fun s e => ?_⟩
  · show (if _ ∧ _ ∧ _ ∧ _ then _ else dest x y) = dest x y
    exact if_neg hout
  · show (if _ ∧ _ ∧ _ ∧ _ then _ else dest x y) = dest x y
    exact if_neg hout
  · show (if _ ∧ _ ∧ _ ∧ _ then _ else dest x y) = dest x y
    exact if_neg hout
  · cases e
    rfl

theorem convolve_frame_effects_witness :
    (convolveCall (fun _ _ => 1) (fun x y => x + y)
        ⟨0, 0, 0, 0, FilterKind.regular, FilterKind.regular, 4, 4, 8⟩ 0 0).2 10 0 =
      10 :=
  ((convolve_frame_effects (fun _ _ => 1) (fun x y => x + y)
      ⟨0, 0, 0, 0, FilterKind.regular, FilterKind.regular, 4, 4, 8⟩
      ⟨0, 0, 1024, 1024, FilterKind.regular, FilterKind.regular, 4, 4, 8⟩ 0 0).2.2.2.1 10 0
    (by decide)).trans rfl

